import Mathlib

/-!
# Boost.Hana: `Optional`, the `MonadPlus` defaults, `fix` and `symmetric_difference`

A shallow embedding of

* `test/functional/fix.cpp` (the factorial built with `fix`, and `reference`),
* `example/symmetric_difference.cpp`,
* `include/boost/hana/monad_plus.hpp` (defaults of the `MonadPlus` concept),
* `include/boost/hana/optional.hpp` (the `Optional` data type),

followed by the properties proved about them.

Conventions.  Compile-time values are embedded as ordinary values.  A C++
expression that is ill-formed (it does not compile) is embedded as `none` in
`Option`.  `unsigned long long` values are natural numbers below `2 ^ 64`, and
every arithmetic operation on them is reduced modulo `2 ^ 64`.  Where the
overloads of a function differ in the reference kind of a parameter
(`optional<>&`, `optional<>&&`, `optional<> const&` next to a forwarding
reference), the value category and constness of the argument expression is an
explicit argument (`value_category`) and decides the overload as in C++; where
every overload takes its arguments by `const&`, or there is a single overload,
the value category plays no part and is not an argument.
-/

namespace Hana

/-! ## `test/functional/fix.cpp` -/

/-- Number of values of `unsigned long long`. -/
def ULLONG_SIZE : Nat := 2 ^ 64

/-- Modelled from the spec: `boost/hana/functional/fix.hpp` is not among the
sources.  `fix f` is the function that passes a reference to itself as first
argument of `f`, that is `fix(f)(x) = f(fix(f), x)`.  The first argument bounds
the depth of the self-references; `none` means that this depth was exhausted. -/
def fix {α β : Type} (f : (α → Option β) → α → Option β) : Nat → α → Option β
  | 0, _ => none
  | fuel + 1, x => f (fix f fuel) x

/-- Modelled from the spec: `boost/hana/eval_if.hpp` is not among the sources.
`eval_if c t e` evaluates only the selected branch; a branch is a function
that is called once selected. -/
def eval_if {β : Type} (c : Bool) (t e : Unit → β) : β :=
  match c with
  | true => t ()
  | false => e ()

/-- Modelled from the spec: `boost/hana/functional/always.hpp` is not among the
sources.  `always x` is the function that ignores its argument and returns
`x`. -/
def always {α β : Type} (x : β) : α → β :=
  fun _ => x

/-- Modelled from the spec: `boost/hana/integral.hpp` is not among the sources.
`equal` of two integral constants compares their values. -/
def ullong_equal (a b : Nat) : Bool :=
  a == b

/-- Modelled from the spec: `boost/hana/integral.hpp` is not among the sources.
`pred` of an `unsigned long long` constant, in 64-bit unsigned arithmetic. -/
def ullong_pred (a : Nat) : Nat :=
  (a + (ULLONG_SIZE - 1)) % ULLONG_SIZE

/-- Modelled from the spec: `boost/hana/integral.hpp` is not among the sources.
`mult` of two integral constants whose common type is `unsigned long long`, in
64-bit unsigned arithmetic. -/
def ullong_mult (a b : Nat) : Nat :=
  (a * b) % ULLONG_SIZE

/-- The lambda given to `fix` in `fix.cpp`, lines 17-22:
`eval_if(equal(n, int_<0>), always(int_<1>), [=](auto _) { return mult(n, fact(_(pred)(n))); })`. -/
def fact_lambda (fact : Nat → Option Nat) (n : Nat) : Option Nat :=
  eval_if (ullong_equal n 0)
    (always (some 1))
    (fun _ => (fact (ullong_pred n)).map (fun r => ullong_mult n r))

/-- The `fact` of `fix.cpp`, line 16: `fix` applied to the lambda. -/
def fact : Nat → Nat → Option Nat :=
  fix fact_lambda

/-- The `reference` of `fix.cpp`, lines 25-26:
`n == 0 ? 1 : n * reference(n - 1)` on `unsigned long long`. -/
def reference : Nat → Nat
  | 0 => 1
  | n + 1 => ((n + 1) * reference n) % ULLONG_SIZE

/-! ## `example/symmetric_difference.cpp` -/

/-- The C++ types named in the example. -/
inductive CxxType where
  | int
  | void
  deriving DecidableEq

/-- The compile-time objects stored in the sets of the example: integral
constants `int_<v>` and type objects `type_c<T>`. -/
inductive Object where
  | int_ (v : Int)
  | type_c (T : CxxType)
  deriving DecidableEq

/-- Modelled from the spec: `boost/hana/set.hpp` is not among the sources.  A
set is given by the list of its elements in the order of their insertion; the
elements of a set are pairwise different (`set.wf`). -/
structure set (α : Type) where
  storage : List α

/-- The elements of a set are pairwise different. -/
@[reducible] def set.wf {α : Type} (xs : set α) : Prop :=
  xs.storage.Nodup

/-- Modelled from the spec: `boost/hana/set.hpp` is not among the sources.
`make_set(x...)` is the set holding the given elements. -/
def make_set {α : Type} (xs : List α) : set α :=
  { storage := xs }

/-- Modelled from the spec: `boost/hana/equal.hpp` and `boost/hana/set.hpp` are
not among the sources.  Two sets are equal "as a set and regardless of the
order in which elements were inserted": they have the same number of elements
and every element of the first belongs to the second. -/
def set.equal {α : Type} [DecidableEq α] (xs ys : set α) : Bool :=
  xs.storage.length == ys.storage.length && xs.storage.all (fun e => decide (e ∈ ys.storage))

/-- Modelled from the spec: `boost/hana/symmetric_difference.hpp` is not among
the sources.  `symmetric_difference(xs, ys)` is "the set of exactly those
elements that belong to one of xs and ys but not to both": the elements of
`xs` that are not in `ys`, together with the elements of `ys` that are not in
`xs`. -/
def symmetric_difference {α : Type} [DecidableEq α] (xs ys : set α) : set α :=
  { storage := xs.storage.filter (fun e => decide (e ∉ ys.storage)) ++
               ys.storage.filter (fun e => decide (e ∉ xs.storage)) }

/-- The `xs` of `symmetric_difference.cpp`, line 16. -/
def example_xs : set Object :=
  make_set [Object.int_ 1, Object.int_ 2, Object.type_c CxxType.int, Object.int_ 3]

/-- The `ys` of `symmetric_difference.cpp`, line 17. -/
def example_ys : set Object :=
  make_set [Object.int_ 3, Object.type_c CxxType.void, Object.type_c CxxType.int]

/-- The right-hand side of the check of `symmetric_difference.cpp`, line 20. -/
def example_expected : set Object :=
  make_set [Object.int_ 1, Object.int_ 2, Object.type_c CxxType.void]

/-! ## `include/boost/hana/monad_plus.hpp`: which data types are models -/

/-- One instantiation `op_impl<M>` of an implementation template of
`monad_plus.hpp`.  `primary` is the partial specialization
`op_impl<M, when<condition>> : default_` written in `monad_plus.hpp` (lines
37-40, 48-51, 59-66, ...), which every data type gets unless it provides its
own; `specialized` is a specialization written for the data type, such as
`concat_impl<Optional>` (`optional.hpp`, line 299), which has no base class. -/
inductive impl where
  | primary
  | specialized
  deriving DecidableEq

/-- Modelled from the spec: `boost/hana/core/default.hpp` is not among the
sources.  `is_default<T>` holds exactly when `T` derives from `default_`, that
is when `T` is the default implementation. -/
def is_default (t : impl) : Bool :=
  match t with
  | impl.primary => true
  | impl.specialized => false

/-- The instantiations, for one data type `M`, of the nine implementation
templates of `monad_plus.hpp`. -/
structure datatype_impls where
  concat_impl : impl
  empty_impl : impl
  prepend_impl : impl
  append_impl : impl
  filter_impl : impl
  cycle_impl : impl
  repeat_impl : impl
  prefix_impl : impl
  suffix_impl : impl

/-- The trait `models_impl<MonadPlus, M>` (`monad_plus.hpp`, lines 200-206):
`!is_default<concat_impl<M>>{} && !is_default<empty_impl<M>>{}`. -/
def models_impl_MonadPlus (M : datatype_impls) : Bool :=
  !is_default M.concat_impl && !is_default M.empty_impl

/-- What `optional.hpp` provides for `Optional` among the templates of
`monad_plus.hpp`: `concat_impl<Optional>` (line 299) and `empty_impl<Optional>`
(line 318), and nothing else. -/
def Optional_impls : datatype_impls :=
  { concat_impl := impl.specialized
    empty_impl := impl.specialized
    prepend_impl := impl.primary
    append_impl := impl.primary
    filter_impl := impl.primary
    cycle_impl := impl.primary
    repeat_impl := impl.primary
    prefix_impl := impl.primary
    suffix_impl := impl.primary }

/-! ## `include/boost/hana/monad_plus.hpp`: the default `cycle` -/

/-- The operations of a data type `M` that the defaults of `monad_plus.hpp`
reach through the dispatching function objects `hana::concat`,
`hana::empty<M>`, `hana::lift<M>` and `hana::bind`. -/
structure MonadPlus (M : Type → Type) where
  concat : {α : Type} → M α → M α → M α
  empty : {α : Type} → M α
  lift : {α : Type} → α → M α
  bind : {α β : Type} → M α → (α → M β) → M β

/-- The laws of the hypothesis of the claim on `cycle`: `concat` is associative
and `empty<M>()` is a two-sided identity of `concat`. -/
structure MonadPlus.monoid_laws {M : Type → Type} (mp : MonadPlus M) : Prop where
  concat_assoc : ∀ {α : Type} (a b c : M α),
    mp.concat a (mp.concat b c) = mp.concat (mp.concat a b) c
  empty_concat : ∀ {α : Type} (a : M α), mp.concat mp.empty a = a
  concat_empty : ∀ {α : Type} (a : M α), mp.concat a mp.empty = a

/-- The function `mdetail::cycle_helper<M, n>::apply` (`monad_plus.hpp`, lines 116-140).  The
three specializations are `<M, 0, true>` (returns `empty<M>()`), `<M, n, true>`
for an even `n` (recurses on `n/2` with `concat(xs, xs)`) and `<M, n, false>`
for an odd `n` (`concat(xs, cycle_helper<M, n-1>::apply(xs))`).  `n` is a
`size_t`; none of `n % 2`, `n/2` and, for an odd `n`, `n-1` can overflow. -/
def mdetail.cycle_helper {M : Type → Type} (mp : MonadPlus M) {α : Type} (n : Nat) (xs : M α) :
    M α :=
  if n = 0 then mp.empty
  else if n % 2 = 0 then mdetail.cycle_helper mp (n / 2) (mp.concat xs xs)
  else mp.concat xs (mdetail.cycle_helper mp (n - 1) xs)
termination_by n
decreasing_by
  all_goals omega

/-- The default `cycle_impl<M, when<condition>>::apply` (`monad_plus.hpp`, lines
142-149); `n` is the value `n_` of the integral constant given to `cycle`. -/
def cycle_impl {M : Type → Type} (mp : MonadPlus M) {α : Type} (n : Nat) (xs : M α) : M α :=
  mdetail.cycle_helper mp n xs

/-- The naive `n`-fold concatenation of the claim on `cycle`:
`concat(xs, concat(xs, ... concat(xs, empty)))` with `n` copies of `xs`. -/
def naive_cycle {M : Type → Type} (mp : MonadPlus M) {α : Type} : Nat → M α → M α
  | 0, _ => mp.empty
  | n + 1, xs => mp.concat xs (naive_cycle mp n xs)

/-- The sequence `MonadPlus`: `concat` is concatenation, `empty` the empty
sequence, `lift x` the one-element sequence and `bind` maps then flattens. -/
def Sequence : MonadPlus List :=
  { concat := fun xs ys => xs ++ ys
    empty := []
    lift := fun x => [x]
    bind := fun xs f => (xs.map f).flatten }

/-! ## `include/boost/hana/monad_plus.hpp`: the instantiations of `cycle_helper` -/

/-- The three partial specializations of `mdetail::cycle_helper` (`monad_plus.hpp`,
lines 120-139), in the order of the source: `cycle_helper<M, 0, true>`,
`cycle_helper<M, n, true>` and `cycle_helper<M, n, false>`. -/
inductive mdetail.cycle_helper_spec where
  | zero_true
  | n_true
  | n_false
  deriving DecidableEq

/-- Whether a specialization matches `cycle_helper<M, n>`, whose third template
argument is the default `n % 2 == 0` of the primary template (`monad_plus.hpp`,
line 117). -/
def mdetail.cycle_helper_spec.applies (s : mdetail.cycle_helper_spec) (n : Nat) : Bool :=
  let even := (n % 2 == 0)
  match s with
  | mdetail.cycle_helper_spec.zero_true => n == 0 && even == true
  | mdetail.cycle_helper_spec.n_true => even == true
  | mdetail.cycle_helper_spec.n_false => even == false

/-- The ordering of the specializations: `cycle_helper<M, 0, true>` is more
specialized than `cycle_helper<M, n, true>`, and no other pair is ordered. -/
def mdetail.cycle_helper_spec.more_specialized (s t : mdetail.cycle_helper_spec) : Bool :=
  match s, t with
  | mdetail.cycle_helper_spec.zero_true, mdetail.cycle_helper_spec.n_true => true
  | _, _ => false

/-- The specializations that match `cycle_helper<M, n>`. -/
def mdetail.cycle_helper_candidates (n : Nat) : List mdetail.cycle_helper_spec :=
  [mdetail.cycle_helper_spec.zero_true, mdetail.cycle_helper_spec.n_true,
    mdetail.cycle_helper_spec.n_false].filter (fun s => s.applies n)

/-- The specialization instantiated for `cycle_helper<M, n>`: the matching
specialization that is more specialized than every other matching one.  The
result is `none` when there is no such specialization, in which case
`cycle_helper<M, n>` is ill-formed (the primary template is only declared, and
an ambiguity is an error). -/
def mdetail.cycle_helper_selected (n : Nat) : Option mdetail.cycle_helper_spec :=
  (mdetail.cycle_helper_candidates n).find?
    (fun s => (mdetail.cycle_helper_candidates n).all
      (fun t => s == t || s.more_specialized t))

/-- The template argument of the `cycle_helper` that the `apply` of a
specialization calls: none for `cycle_helper<M, 0, true>` (line 124), `n/2` for
`cycle_helper<M, n, true>` (line 131) and `n-1` for `cycle_helper<M, n, false>`
(line 138). -/
def mdetail.cycle_helper_spec.nested (s : mdetail.cycle_helper_spec) (n : Nat) : Option Nat :=
  match s with
  | mdetail.cycle_helper_spec.zero_true => none
  | mdetail.cycle_helper_spec.n_true => some (n / 2)
  | mdetail.cycle_helper_spec.n_false => some (n - 1)

/-- The number of nested instantiations that `cycle_helper<M, n>::apply` goes
through before it reaches `cycle_helper<M, 0, true>`, following at most `fuel`
instantiations; `none` when the base case is not reached within `fuel`
instantiations or when an instantiation is ill-formed. -/
def mdetail.cycle_helper_depth : Nat → Nat → Option Nat
  | 0, _ => none
  | fuel + 1, n =>
    match mdetail.cycle_helper_selected n with
    | none => none
    | some s =>
      match s.nested n with
      | none => some 0
      | some m => (mdetail.cycle_helper_depth fuel m).map (fun d => d + 1)

/-! ## `include/boost/hana/monad_plus.hpp`: the other defaults -/

/-- Modelled from the spec: `boost/hana/functional/partial.hpp` is not among the
sources.  `partial(f, x)` is the function that calls `f` with `x` followed by
its own argument: `partial(f, x)(y) = f(x, y)`. -/
def partial_ {A B C : Type} (f : A → B → C) (x : A) : B → C :=
  fun y => f x y

/-- Modelled from the spec: `boost/hana/functional/flip.hpp` is not among the
sources.  `flip(f)` calls `f` with its first two arguments exchanged:
`flip(f)(x, y) = f(y, x)`. -/
def flip {A B C : Type} (f : A → B → C) : B → A → C :=
  fun x y => f y x

/-- Modelled from the spec: `boost/hana/logical.hpp` is not among the sources.
`if_(cond, then, else)` is `then` when `cond` is true and `else` otherwise;
both are already evaluated. -/
def if_ {β : Type} (cond : Bool) (then_ else_ : β) : β :=
  match cond with
  | true => then_
  | false => else_

/-- The default `prepend_impl<M, when<condition>>::apply` (`monad_plus.hpp`,
lines 59-66): `concat(lift<M>(x), xs)`. -/
def prepend_impl {M : Type → Type} (mp : MonadPlus M) {α : Type} (x : α) (xs : M α) : M α :=
  mp.concat (mp.lift x) xs

/-- The default `append_impl<M, when<condition>>::apply` (`monad_plus.hpp`,
lines 74-81): `concat(xs, lift<M>(x))`. -/
def append_impl {M : Type → Type} (mp : MonadPlus M) {α : Type} (xs : M α) (x : α) : M α :=
  mp.concat xs (mp.lift x)

/-- The function object `go` of the default `filter_impl` (`monad_plus.hpp`,
lines 91-100): `if_(pred(x), lift<M>(x), empty<M>())`. -/
def filter_impl.go {M : Type → Type} (mp : MonadPlus M) {α : Type} (pred : α → Bool) (x : α) :
    M α :=
  let cond := pred x
  if_ cond (mp.lift x) mp.empty

/-- The default `filter_impl<M, when<condition>>::apply` (`monad_plus.hpp`,
lines 102-107): `bind(xs, partial(go{}, pred))`. -/
def filter_impl {M : Type → Type} (mp : MonadPlus M) {α : Type} (xs : M α) (pred : α → Bool) :
    M α :=
  mp.bind xs (partial_ (filter_impl.go mp) pred)

/-- The default `repeat_impl<M, when<condition>>::apply` (`monad_plus.hpp`,
lines 157-164): `cycle(n, lift<M>(x))`.  The argument `cycle` is the
implementation that `hana::cycle` dispatches to for `M`. -/
def repeat_impl {M : Type → Type} (mp : MonadPlus M) {α : Type} (cycle : Nat → M α → M α)
    (n : Nat) (x : α) : M α :=
  cycle n (mp.lift x)

/-- The default `prefix_impl<M, when<condition>>::apply` (`monad_plus.hpp`,
lines 172-179): `bind(xs, partial(append, lift<M>(z)))`.  The argument `append`
is the implementation that `hana::append` dispatches to for `M`. -/
def prefix_impl {M : Type → Type} (mp : MonadPlus M) {α : Type} (append : M α → α → M α)
    (z : α) (xs : M α) : M α :=
  mp.bind xs (partial_ append (mp.lift z))

/-- The default `suffix_impl<M, when<condition>>::apply` (`monad_plus.hpp`,
lines 187-195): `bind(xs, partial(flip(prepend), lift<M>(z)))`.  The argument
`prepend` is the implementation that `hana::prepend` dispatches to for `M`. -/
def suffix_impl {M : Type → Type} (mp : MonadPlus M) {α : Type} (prepend : α → M α → M α)
    (z : α) (xs : M α) : M α :=
  mp.bind xs (partial_ (flip prepend) (mp.lift z))

/-- The sequence `[z, x1, z, x2, ..., z, xn]` of the claim on `prefix`: `z`
immediately before each element of `xs`. -/
def insert_before_each {α : Type} (z : α) : List α → List α
  | [] => []
  | x :: xs => z :: x :: insert_before_each z xs

/-- The sequence `[x1, z, x2, z, ..., xn, z]` of the claim on `suffix`: `z`
immediately after each element of `xs`. -/
def insert_after_each {α : Type} (z : α) : List α → List α
  | [] => []
  | x :: xs => x :: z :: insert_after_each z xs

/-! ## `include/boost/hana/optional.hpp` -/

/-- The objects of data type `Optional`: `nothing` is the only value of
`optional<>`, and `just v` is the value of `optional<T>` with member `val`
equal to `v` (`optional.hpp`, lines 56-77). -/
inductive optional (T : Type) where
  | nothing : optional T
  | just (v : T) : optional T
  deriving DecidableEq

open optional

/-- The function `make_just_t::operator()` (`optional.hpp`, lines 80-85). -/
def make_just {T : Type} (t : T) : optional T :=
  just t

/-- The function `is_just_t::operator()` (`optional.hpp`, lines 130-132): `bool_<M::is_just>`;
the member `is_just` is `true` in `optional<T>` (line 59) and `false` in
`optional<>`. -/
def is_just {T : Type} (m : optional T) : Bool :=
  match m with
  | just _ => true
  | nothing => false

/-- The member access `m.val` on an expression of data type `Optional`:
`optional<T>` has the member `val` (line 58) and `optional<>` has no such member,
in which case the expression is ill-formed. -/
def optional.val {T : Type} (m : optional T) : Option T :=
  match m with
  | just v => some v
  | nothing => none

/-- Modelled from the spec: `hana::maybe` is declared and defined in
`boost/hana/fwd/optional.hpp`, which is not among the sources.
`maybe(default, f, m)` is `default` when `m` is `nothing` and `f(x)` when `m` is
`just(x)`. -/
def maybe {T R : Type} (default_ : R) (f : T → R) (m : optional T) : R :=
  match m with
  | nothing => default_
  | just x => f x

/-- Modelled from the spec: `boost/hana/functional/compose.hpp` is not among the
sources.  `compose(f, g)` is `f` after `g`. -/
def compose {A B C : Type} (f : B → C) (g : A → B) : A → C :=
  fun x => f (g x)

/-- The function `from_maybe_t::operator()` (`optional.hpp`, lines 141-145):
`maybe(default_, id, m)`. -/
def from_maybe {T : Type} (default_ : T) (m : optional T) : T :=
  maybe default_ id m

/-- The function `from_just_t::operator()` (`optional.hpp`, lines 147-153): the
static assertion on `is_just` with its message, then `id(m.val)`.  An error
is a program that is rejected, with the diagnostic. -/
def from_just {T : Type} (m : optional T) : Except String T :=
  if is_just m then
    match optional.val m with
    | some v => Except.ok (id v)
    | none => Except.error "no member named val"
  else
    Except.error
      "trying to extract the value inside a boost::hana::nothing with boost::hana::from_just"

/-- Modelled from the spec: `boost/hana/lazy.hpp` is not among the sources.  A
lazy computation is evaluated only on demand, which `eval_if` does for the
branch it selects; the evaluation gives `none` when the suspended expression
is ill-formed. -/
@[reducible] def lazy (β : Type) : Type :=
  Unit → Option β

/-- Modelled from the spec: `boost/hana/lazy.hpp` is not among the sources.
`make_lazy(v)` is the lazy computation whose value is `v`. -/
def make_lazy {β : Type} (v : β) : lazy β :=
  fun _ => some v

/-- Modelled from the spec: `boost/hana/lazy.hpp` is not among the sources.
`make_lazy(f)(x)` is the suspended call `f(x)`: `f` is called only when the
computation is evaluated. -/
def lazy.apply {X R : Type} (f : lazy (X → Option R)) (x : X) : lazy R :=
  fun _ => (f ()).bind (fun g => g x)

/-- A function whose call is well-formed on every argument. -/
def total {X R : Type} (f : X → R) : X → Option R :=
  fun x => some (f x)

/-- Modelled from the spec: `boost/hana/functional/compose.hpp` is not among the
sources.  `compose(f, g)` is `f` after `g`, for a `g` whose call `g(x)` may be
ill-formed, in which case `compose(f, g)(x)` is ill-formed too. -/
def compose_call {A B C : Type} (f : B → C) (g : A → Option B) : A → Option C :=
  fun x => (g x).map f

/-- The function `only_when_t::operator()` (`optional.hpp`, lines 158-166):
`eval_if(pred(x), make_lazy(compose(just, f))(x), make_lazy(nothing))`.  The call
`f(x)` may be ill-formed (`none`). -/
def only_when {X R : Type} (pred : X → Bool) (f : X → Option R) (x : X) : Option (optional R) :=
  eval_if (pred x)
    (lazy.apply (make_lazy (compose_call make_just f)) x)
    (make_lazy nothing)

/-- The value category and constness of an argument expression of type
`optional<...>`: a non-const lvalue, a const lvalue, a non-const rvalue (such as
the result of a call returning by value) or a const rvalue (such as
`std::move(hana::nothing)`, `hana::nothing` being a `constexpr` object). -/
inductive value_category where
  | lvalue
  | const_lvalue
  | rvalue
  | const_rvalue
  deriving DecidableEq

/-- Overload resolution for an argument `nothing` between the three overloads
whose parameter is `optional<>&`, `optional<>&&` or `optional<> const&` and a
generic overload whose parameter is a forwarding reference `X&&`, as in
`concat_impl<Optional>`, `unpack_impl<Optional>` and `find_if_impl<Optional>`.
A non-const lvalue binds `optional<>&`, a non-const rvalue binds `optional<>&&`
and a const lvalue binds `optional<> const&`, each time as well as `X&&` does,
and the overload that is not generic in this parameter is more specialized.
A const rvalue can bind neither `optional<>&` nor `optional<>&&`; it binds
`optional<> const&`, but the generic `X&&` (here `optional<> const&&`) binds an
rvalue reference to an rvalue, which is the better conversion: the generic
overload is selected.  The result is `true` when one of the three `optional<>`
overloads is selected. -/
def nothing_overload_selected (c : value_category) : Bool :=
  match c with
  | value_category.lvalue => true
  | value_category.const_lvalue => true
  | value_category.rvalue => true
  | value_category.const_rvalue => false

namespace Optional

/-- The function `equal_impl<Optional, Optional>::apply` (`optional.hpp`, lines 201-213); the
first argument is `hana::equal` on the contents.  Overload resolution selects
the first overload for two `just`s, the second for two `nothing`s and the
third, generic one for every other pair. -/
def equal_impl {T U : Type} (equal : T → U → Bool) (t : optional T) (u : optional U) : Bool :=
  match t, u with
  | just tval, just uval => equal tval uval
  | nothing, nothing => true
  | _, _ => false

/-- The function `less_impl<Optional, Optional>::apply` (`optional.hpp`, lines 218-234), one
case per overload, in the order of the source; the first argument is
`hana::less` on the contents. -/
def less_impl {T U : Type} (less : T → U → Bool) (x : optional T) (y : optional U) : Bool :=
  match x, y with
  | nothing, just _ => true
  | nothing, nothing => false
  | just _, nothing => false
  | just xval, just yval => less xval yval

/-- The function `transform_impl<Optional>::apply` (`optional.hpp`, lines 239-249). -/
def transform_impl {T U : Type} (m : optional T) (f : T → U) : optional U :=
  maybe nothing (compose make_just f) m

/-- The function `lift_impl<Optional>::apply` (`optional.hpp`, lines 254-259). -/
def lift_impl {T : Type} (x : T) : optional T :=
  make_just x

/-- The function `ap_impl<Optional>::apply_impl` (`optional.hpp`, lines 263-270): the overload
taking `decltype(true_)` builds `just(f.val(x.val))`, the one taking
`decltype(false_)` returns `nothing`.  `none` stands for an ill-formed
member access. -/
def ap_impl.apply_impl {T U : Type} (f : optional (T → U)) (x : optional T) (tag : Bool) :
    Option (optional U) :=
  match tag with
  | true =>
    match optional.val f, optional.val x with
    | some fval, some xval => some (make_just (fval xval))
    | _, _ => none
  | false => some nothing

/-- The function `ap_impl<Optional>::apply` (`optional.hpp`, lines 272-281). -/
def ap_impl.apply {T U : Type} (f : optional (T → U)) (x : optional T) : Option (optional U) :=
  ap_impl.apply_impl f x (is_just f && is_just x)

/-- The function `flatten_impl<Optional>::apply` (`optional.hpp`, lines 287-293);
`hana::id` is the identity function. -/
def flatten_impl {T : Type} (mmx : optional (optional T)) : optional T :=
  maybe nothing id mmx

/-- The function `concat_impl<Optional>::apply` (`optional.hpp`, lines 298-315); `c` is
the value category of the first argument.  The three overloads whose first
parameter is `optional<>&`, `optional<>&&` or `optional<> const&` return `y`; the
generic overload `apply(X&& x, Y&&)`, selected for a `just` and for a `nothing`
that none of the three takes, returns `x`. -/
def concat_impl {T : Type} (c : value_category) (x y : optional T) : optional T :=
  match x with
  | nothing => if nothing_overload_selected c then y else x
  | just _ => x

/-- The function `empty_impl<Optional>::apply` (`optional.hpp`, lines 317-321). -/
def empty_impl {T : Type} : optional T :=
  nothing

/-- A function object `f` that accepts a call without argument, `f()`, and a
call with one argument, `f(x)`. -/
structure callable (T R : Type) where
  call0 : R
  call1 : T → R

/-- The function `unpack_impl<Optional>::apply` (`optional.hpp`, lines 326-343); `c` is
the value category of the first argument.  The generic overload
`apply(M&& m, F&& f)`, selected for a `just` and for a `nothing` that none of
the other three takes, returns `f(m.val)`, which is ill-formed (`none`) when
`m` has no member `val`; the three overloads whose first parameter is
`optional<> const&`, `optional<>&&` or `optional<>&` return `f()`. -/
def unpack_impl {T R : Type} (c : value_category) (m : optional T) (f : callable T R) :
    Option R :=
  match m with
  | just _ => (optional.val m).map f.call1
  | nothing =>
    if nothing_overload_selected c then some f.call0
    else (optional.val m).map f.call1

/-- The function `find_if_impl<Optional>::apply` (`optional.hpp`, lines 348-367); `c` is
the value category of the first argument.  The generic overload
`apply(M&& m, Pred&& pred)`, selected for a `just` and for a `nothing` that none
of the other three takes, returns `only_when(pred, id, m.val)`, which is
ill-formed (`none`) when `m` has no member `val`; the three overloads whose
first parameter is `optional<> const&`, `optional<>&&` or `optional<>&` return
`nothing`. -/
def find_if_impl {T : Type} (c : value_category) (m : optional T) (pred : T → Bool) :
    Option (optional T) :=
  match m with
  | just _ => (optional.val m).bind (fun v => only_when pred (total id) v)
  | nothing =>
    if nothing_overload_selected c then some nothing
    else (optional.val m).bind (fun v => only_when pred (total id) v)

/-- The function `any_of_impl<Optional>::apply` (`optional.hpp`, lines 369-378):
`maybe(false_, p, m)`. -/
def any_of_impl {T : Type} (m : optional T) (p : T → Bool) : Bool :=
  maybe false p m

/-- Modelled from the spec: `boost/hana/monad.hpp` is not among the sources, and
`optional.hpp` has no `bind_impl<Optional>`.  The `bind` of `Optional` is
`flatten` after `transform`: `bind(m, f) = flatten(transform(m, f))`. -/
def bind_impl {T U : Type} (m : optional T) (f : T → optional U) : optional U :=
  flatten_impl (transform_impl m f)

/-- The operations of `Optional` reached by the defaults of `monad_plus.hpp`,
when the first argument given to `hana::concat` is an expression of value
category `c`.  In `cycle_helper` that argument is `xs`, an `Xs const&`
(`monad_plus.hpp`, lines 131 and 138): a const lvalue.  In the default `prepend`
it is the result of `lift<M>(x)` (line 63): a non-const rvalue.  In the default
`append` it is `static_cast<Xs&&>(xs)` (line 78): the value category of the
argument given to `append`.  The dispatching function objects forward their
arguments unchanged. -/
def monad_plus (c : value_category) : MonadPlus optional :=
  { concat := fun x y => concat_impl c x y
    empty := empty_impl
    lift := fun x => lift_impl x
    bind := fun m f => bind_impl m f }

end Optional

/-! ## Orders on the contents of an `optional` -/

/-- Exactly one of three booleans is true. -/
@[reducible] def exactly_one (p q r : Bool) : Prop :=
  (p = true ∧ q = false ∧ r = false) ∨
  (p = false ∧ q = true ∧ r = false) ∨
  (p = false ∧ q = false ∧ r = true)

/-- The hypothesis of the claim on the order of optionals: `less` is a strict
total order with `equal` as the matching equality. -/
structure strict_total_order {T : Type} (less equal : T → T → Bool) : Prop where
  trichotomy : ∀ x y : T, exactly_one (less x y) (equal x y) (less y x)
  less_trans : ∀ x y z : T, less x y = true → less y z = true → less x z = true

/-- The order of the natural numbers, as `hana::less` on the contents. -/
def nat_less (x y : Nat) : Bool :=
  decide (x < y)

/-- The equality of the natural numbers, as `hana::equal` on the contents. -/
def nat_equal (x y : Nat) : Bool :=
  decide (x = y)

/-! ## Properties of `fix.cpp` -/

theorem ullong_pred_succ (n : Nat) (h : n + 1 < ULLONG_SIZE) : ullong_pred (n + 1) = n := by
  unfold ullong_pred ULLONG_SIZE at *
  omega

/-- C1: for every `unsigned long long` value `n`, the factorial built with
`fix` returns (as soon as more than `n` self-references are allowed) exactly
the value of the directly recursive `reference n`, both in 64-bit unsigned
arithmetic. -/
theorem fact_eq_reference (n fuel : Nat) (hn : n < ULLONG_SIZE) (hfuel : n < fuel) :
    fact fuel n = some (reference n) := by
  induction n generalizing fuel with
  | zero =>
    obtain ⟨k, rfl⟩ : ∃ k, fuel = k + 1 := ⟨fuel - 1, by omega⟩
    rfl
  | succ m ih =>
    obtain ⟨k, rfl⟩ : ∃ k, fuel = k + 1 := ⟨fuel - 1, by omega⟩
    have hm : m < ULLONG_SIZE := by omega
    have hrec : fix fact_lambda k m = some (reference m) := ih k hm (by omega)
    have hstep : fact_lambda (fix fact_lambda k) (m + 1)
        = (fix fact_lambda k (ullong_pred (m + 1))).map (fun r => ullong_mult (m + 1) r) := by
      simp [fact_lambda, eval_if, ullong_equal]
    show fact_lambda (fix fact_lambda k) (m + 1) = some (reference (m + 1))
    rw [hstep, ullong_pred_succ m hn, hrec]
    rfl

theorem fact_eq_reference_witness :
    15 < ULLONG_SIZE ∧ 15 < 16 ∧ fact 16 15 = some (reference 15) :=
  ⟨by decide, by decide, fact_eq_reference 15 16 (by decide) (by decide)⟩

/-! ## Properties of `symmetric_difference` -/

theorem mem_symmetric_difference {α : Type} [DecidableEq α] (xs ys : set α) (e : α) :
    e ∈ (symmetric_difference xs ys).storage ↔
      ((e ∈ xs.storage ∧ e ∉ ys.storage) ∨ (e ∈ ys.storage ∧ e ∉ xs.storage)) := by
  simp [symmetric_difference, List.mem_append, List.mem_filter]

theorem symmetric_difference_wf {α : Type} [DecidableEq α] (xs ys : set α)
    (hx : xs.wf) (hy : ys.wf) : (symmetric_difference xs ys).wf := by
  unfold set.wf symmetric_difference at *
  refine List.Nodup.append (hx.filter _) (hy.filter _) ?_
  intro e h1 h2
  simp [List.mem_filter] at h1 h2
  exact h1.2 h2.1

theorem set_equal_of_mem_iff {α : Type} [DecidableEq α] (xs ys : set α)
    (hx : xs.wf) (hy : ys.wf) (h : ∀ e, e ∈ xs.storage ↔ e ∈ ys.storage) :
    set.equal xs ys = true := by
  have hperm : xs.storage.Perm ys.storage := (List.perm_ext_iff_of_nodup hx hy).2 h
  simp only [set.equal, Bool.and_eq_true, beq_iff_eq, List.all_eq_true, decide_eq_true_eq]
  exact ⟨hperm.length_eq, fun e he => (h e).1 he⟩

/-- C2: for all sets `xs` and `ys`, `symmetric_difference xs ys` is a set, its
elements are exactly the elements that belong to one of `xs` and `ys` but not
to both, and it compares equal to every set `zs` that holds exactly those
elements, whatever the order in which `zs` was built; for the `xs` and `ys` of
the example the result compares equal to `{1, 2, void}`. -/
theorem symmetric_difference_spec {α : Type} [DecidableEq α] (xs ys : set α)
    (hx : xs.wf) (hy : ys.wf) :
    (symmetric_difference xs ys).wf ∧
    (∀ e, e ∈ (symmetric_difference xs ys).storage ↔
      ((e ∈ xs.storage ∧ e ∉ ys.storage) ∨ (e ∈ ys.storage ∧ e ∉ xs.storage))) ∧
    (∀ zs : set α, zs.wf →
      (∀ e, e ∈ zs.storage ↔
        ((e ∈ xs.storage ∧ e ∉ ys.storage) ∨ (e ∈ ys.storage ∧ e ∉ xs.storage))) →
      set.equal (symmetric_difference xs ys) zs = true) ∧
    set.equal (symmetric_difference example_xs example_ys) example_expected = true := by
  refine ⟨symmetric_difference_wf xs ys hx hy, mem_symmetric_difference xs ys, ?_, by decide⟩
  intro zs hz hmem
  refine set_equal_of_mem_iff _ zs (symmetric_difference_wf xs ys hx hy) hz ?_
  intro e
  rw [mem_symmetric_difference, hmem]

theorem symmetric_difference_spec_witness :
    example_xs.wf ∧ example_ys.wf ∧
    set.equal (symmetric_difference example_xs example_ys)
      (make_set [Object.type_c CxxType.void, Object.int_ 2, Object.int_ 1]) = true :=
  ⟨by decide, by decide,
    (symmetric_difference_spec example_xs example_ys (by decide) (by decide)).2.2.1
      (make_set [Object.type_c CxxType.void, Object.int_ 2, Object.int_ 1]) (by decide)
      (fun e => by
        rw [← mem_symmetric_difference]
        show e ∈ [Object.type_c CxxType.void, Object.int_ 2, Object.int_ 1] ↔
          e ∈ [Object.int_ 1, Object.int_ 2, Object.type_c CxxType.void]
        simp only [List.mem_cons, List.mem_nil_iff, or_false]
        tauto)⟩

/-! ## Properties of `models_impl<MonadPlus, M>` -/

/-- C3: `models_impl<MonadPlus, M>` is true if and only if both `concat_impl<M>`
and `empty_impl<M>` are non-default; whatever the seven derived operations
are, the answer is true when both primitives are specialized and false when
only one or none is; `Optional`, which specializes exactly `concat` and
`empty`, is a model. -/
theorem models_impl_MonadPlus_iff :
    (∀ M : datatype_impls, models_impl_MonadPlus M = true ↔
      (is_default M.concat_impl = false ∧ is_default M.empty_impl = false)) ∧
    (∀ p a f c r pre suf : impl,
      models_impl_MonadPlus ⟨impl.specialized, impl.specialized, p, a, f, c, r, pre, suf⟩ = true ∧
      models_impl_MonadPlus ⟨impl.specialized, impl.primary, p, a, f, c, r, pre, suf⟩ = false ∧
      models_impl_MonadPlus ⟨impl.primary, impl.specialized, p, a, f, c, r, pre, suf⟩ = false ∧
      models_impl_MonadPlus ⟨impl.primary, impl.primary, p, a, f, c, r, pre, suf⟩ = false) ∧
    Optional_impls.concat_impl = impl.specialized ∧
    Optional_impls.empty_impl = impl.specialized ∧
    Optional_impls.prepend_impl = impl.primary ∧
    Optional_impls.append_impl = impl.primary ∧
    Optional_impls.filter_impl = impl.primary ∧
    Optional_impls.cycle_impl = impl.primary ∧
    Optional_impls.repeat_impl = impl.primary ∧
    Optional_impls.prefix_impl = impl.primary ∧
    Optional_impls.suffix_impl = impl.primary ∧
    models_impl_MonadPlus Optional_impls = true := by
  refine ⟨?_, ?_, rfl, rfl, rfl, rfl, rfl, rfl, rfl, rfl, rfl, rfl⟩
  · intro M
    simp [models_impl_MonadPlus]
  · intro p a f c r pre suf
    exact ⟨rfl, rfl, rfl, rfl⟩

/-! ## Properties of `Optional` -/

/-- C4: the monoid laws of `concat` on `Optional` fail when a `nothing` is given
as a const rvalue: with `a` a const rvalue `nothing`, `b = nothing` and
`c = just(1)`, `concat(a, concat(b, c))` is `nothing` whereas
`concat(concat(a, b), c)` is `just(1)`, and `concat(a, c)` is `nothing` instead
of `c`.  Apart from that case the laws hold: `empty<Optional>()` is `nothing`,
`concat(empty<Optional>(), a) = a` (the call is a non-const rvalue, as is the
result of every `concat`), `concat(nothing, a) = a` for a `nothing` of any
other value category, `concat(a, empty) = a` always, and `concat` is
associative when neither `a` nor `b` is a const rvalue. -/
theorem Optional_concat_monoid_const_rvalue :
    (Optional.concat_impl value_category.const_rvalue (optional.nothing : optional Nat)
        (Optional.concat_impl value_category.rvalue optional.nothing (optional.just 1)) =
      optional.nothing ∧
     Optional.concat_impl value_category.rvalue
        (Optional.concat_impl value_category.const_rvalue (optional.nothing : optional Nat)
          optional.nothing) (optional.just 1) =
      optional.just 1) ∧
    (Optional.concat_impl value_category.const_rvalue (optional.nothing : optional Nat)
        (optional.just 1) = optional.nothing) ∧
    (∀ T : Type, (Optional.empty_impl : optional T) = optional.nothing) ∧
    (∀ (T : Type) (a : optional T),
      Optional.concat_impl value_category.rvalue Optional.empty_impl a = a) ∧
    (∀ (T : Type) (ca : value_category) (a : optional T),
      ca ≠ value_category.const_rvalue → Optional.concat_impl ca optional.nothing a = a) ∧
    (∀ (T : Type) (ca : value_category) (a : optional T),
      Optional.concat_impl ca a Optional.empty_impl = a) ∧
    (∀ (T : Type) (ca cb : value_category) (a b c : optional T),
      ca ≠ value_category.const_rvalue → cb ≠ value_category.const_rvalue →
      Optional.concat_impl ca a (Optional.concat_impl cb b c) =
        Optional.concat_impl value_category.rvalue (Optional.concat_impl ca a b) c) := by
  refine ⟨⟨rfl, rfl⟩, rfl, fun T => rfl, fun T a => rfl, ?_, ?_, ?_⟩
  · intro T ca a hca
    cases ca
    · rfl
    · rfl
    · rfl
    · exact absurd rfl hca
  · intro T ca a
    cases a
    · cases ca <;> rfl
    · rfl
  · intro T ca cb a b c hca hcb
    cases a with
    | just x => rfl
    | nothing =>
      cases b with
      | just y =>
        cases ca
        · rfl
        · rfl
        · rfl
        · exact absurd rfl hca
      | nothing =>
        cases ca
        · cases cb
          · rfl
          · rfl
          · rfl
          · exact absurd rfl hcb
        · cases cb
          · rfl
          · rfl
          · rfl
          · exact absurd rfl hcb
        · cases cb
          · rfl
          · rfl
          · rfl
          · exact absurd rfl hcb
        · exact absurd rfl hca

/-- C5: the Monad laws of `Optional` with `lift = just`: `flatten(lift(m)) = m`,
`flatten(transform(m, lift)) = m`, and
`flatten(flatten(mmm)) = flatten(transform(mmm, flatten))`; moreover
`flatten(nothing) = nothing`, `flatten(just(nothing)) = nothing` and
`flatten(just(just(x))) = just(x)`. -/
theorem Optional_monad_laws {T : Type} :
    (∀ x : T, Optional.lift_impl x = optional.just x) ∧
    (∀ m : optional T, Optional.flatten_impl (Optional.lift_impl m) = m) ∧
    (∀ m : optional T,
      Optional.flatten_impl (Optional.transform_impl m Optional.lift_impl) = m) ∧
    (∀ mmm : optional (optional (optional T)),
      Optional.flatten_impl (Optional.flatten_impl mmm) =
        Optional.flatten_impl (Optional.transform_impl mmm Optional.flatten_impl)) ∧
    (Optional.flatten_impl (optional.nothing : optional (optional T)) = optional.nothing) ∧
    (Optional.flatten_impl (optional.just (optional.nothing : optional T)) = optional.nothing) ∧
    (∀ x : T, Optional.flatten_impl (optional.just (optional.just x)) = optional.just x) := by
  refine ⟨fun x => rfl, fun m => rfl, fun m => ?_, fun mmm => ?_, rfl, rfl, fun x => rfl⟩
  · cases m <;> rfl
  · cases mmm <;> rfl

/-- C6: the Functor laws of `Optional`: `transform(nothing, f) = nothing`,
`transform(just(x), f) = just(f(x))`, `transform(m, id) = m` and
`transform(transform(m, f), g) = transform(m, g after f)`. -/
theorem Optional_functor_laws {T U V : Type} :
    (∀ f : T → U, Optional.transform_impl optional.nothing f = optional.nothing) ∧
    (∀ (f : T → U) (x : T),
      Optional.transform_impl (optional.just x) f = optional.just (f x)) ∧
    (∀ m : optional T, Optional.transform_impl m id = m) ∧
    (∀ (m : optional T) (f : T → U) (g : U → V),
      Optional.transform_impl (Optional.transform_impl m f) g =
        Optional.transform_impl m (compose g f)) := by
  refine ⟨fun f => rfl, fun f x => rfl, fun m => ?_, fun m f g => ?_⟩
  · cases m <;> rfl
  · cases m <;> rfl

/-- C7: `ap(f, x)` is well-formed for all optionals; it is `just(g(v))` when
`f = just(g)` and `x = just(v)`, and `nothing` as soon as one of `f` and `x` is
`nothing`; and `ap(lift(g), m) = transform(m, g)`. -/
theorem Optional_ap_spec {T U : Type} :
    (∀ (g : T → U) (v : T),
      Optional.ap_impl.apply (optional.just g) (optional.just v) =
        some (optional.just (g v))) ∧
    (∀ x : optional T,
      Optional.ap_impl.apply (optional.nothing : optional (T → U)) x = some optional.nothing) ∧
    (∀ f : optional (T → U),
      Optional.ap_impl.apply f (optional.nothing : optional T) = some optional.nothing) ∧
    (∀ (g : T → U) (m : optional T),
      Optional.ap_impl.apply (Optional.lift_impl g) m = some (Optional.transform_impl m g)) := by
  refine ⟨fun g v => rfl, fun x => ?_, fun f => ?_, fun g m => ?_⟩
  · cases x <;> rfl
  · cases f <;> rfl
  · cases m <;> rfl

/-- C8: `equal(a, b)` on optionals is true if and only if both are `nothing`, or
`a = just(x)` and `b = just(y)` with `equal(x, y)` true; a `just` and a `nothing`
compare unequal in either order. -/
theorem Optional_equal_spec {T U : Type} (equal : T → U → Bool) :
    (∀ (a : optional T) (b : optional U), Optional.equal_impl equal a b = true ↔
      ((a = optional.nothing ∧ b = optional.nothing) ∨
        ∃ x y, a = optional.just x ∧ b = optional.just y ∧ equal x y = true)) ∧
    (∀ x : T, Optional.equal_impl equal (optional.just x) optional.nothing = false) ∧
    (∀ y : U, Optional.equal_impl equal optional.nothing (optional.just y) = false) := by
  refine ⟨fun a b => ?_, fun x => rfl, fun y => rfl⟩
  cases a <;> cases b <;> simp [Optional.equal_impl]

/-- C9: `less(a, b)` on optionals is true when `a` is `nothing` and `b` is a
`just`, false when `b` is `nothing`, and `less(x, y)` when `a = just(x)` and
`b = just(y)`. -/
theorem Optional_less_spec {T U : Type} (less : T → U → Bool) :
    (∀ y : U, Optional.less_impl less optional.nothing (optional.just y) = true) ∧
    (∀ a : optional T, Optional.less_impl less a optional.nothing = false) ∧
    (∀ (x : T) (y : U),
      Optional.less_impl less (optional.just x) (optional.just y) = less x y) := by
  refine ⟨fun y => rfl, fun a => ?_, fun x y => rfl⟩
  cases a <;> rfl

/-! ## Properties of the default `cycle` -/

theorem Sequence_monoid_laws : Sequence.monoid_laws where
  concat_assoc := fun a b c => (List.append_assoc a b c).symm
  empty_concat := fun a => List.nil_append a
  concat_empty := fun a => List.append_nil a

theorem naive_cycle_double {M : Type → Type} (mp : MonadPlus M) (h : mp.monoid_laws)
    {α : Type} (k : Nat) (xs : M α) :
    naive_cycle mp (2 * k) xs = naive_cycle mp k (mp.concat xs xs) := by
  induction k with
  | zero => rfl
  | succ k ih =>
    have hk : 2 * (k + 1) = (2 * k + 1) + 1 := by omega
    rw [hk]
    simp only [naive_cycle]
    rw [ih, h.concat_assoc]

theorem cycle_helper_eq_naive_cycle {M : Type → Type} (mp : MonadPlus M) (h : mp.monoid_laws)
    {α : Type} (n : Nat) : ∀ xs : M α, mdetail.cycle_helper mp n xs = naive_cycle mp n xs := by
  induction n using Nat.strong_induction_on with
  | _ n ih =>
    intro xs
    rw [mdetail.cycle_helper]
    split_ifs with h0 h2
    · subst h0
      rfl
    · rw [ih (n / 2) (by omega)]
      have hn : n = 2 * (n / 2) := by omega
      conv_rhs => rw [hn]
      rw [naive_cycle_double mp h]
    · rw [ih (n - 1) (by omega)]
      obtain ⟨m, rfl⟩ : ∃ m, n = m + 1 := ⟨n - 1, by omega⟩
      rfl

/-- C10: for every `MonadPlus` whose `concat` is associative with `empty<M>()`
as two-sided identity, every natural number `n` and every `xs`, the default
`cycle(n, xs)`, computed by halving, equals the naive concatenation of `n`
copies of `xs`; in particular `cycle(0, xs) = empty<M>()` and
`cycle(1, xs) = xs`. -/
theorem cycle_impl_eq_naive_cycle {M : Type → Type} (mp : MonadPlus M) (h : mp.monoid_laws)
    {α : Type} (n : Nat) (xs : M α) :
    cycle_impl mp n xs = naive_cycle mp n xs ∧
    cycle_impl mp 0 xs = mp.empty ∧
    cycle_impl mp 1 xs = xs := by
  refine ⟨cycle_helper_eq_naive_cycle mp h n xs, ?_, ?_⟩
  · exact cycle_helper_eq_naive_cycle mp h 0 xs
  · have h1 : cycle_impl mp 1 xs = naive_cycle mp 1 xs := cycle_helper_eq_naive_cycle mp h 1 xs
    rw [h1]
    exact h.concat_empty xs

theorem cycle_impl_eq_naive_cycle_witness :
    Sequence.monoid_laws ∧
    cycle_impl Sequence 6 [1, 2] = [1, 2, 1, 2, 1, 2, 1, 2, 1, 2, 1, 2] ∧
    cycle_impl Sequence 0 [1, 2] = [] ∧
    cycle_impl Sequence 1 [1, 2] = [1, 2] :=
  ⟨Sequence_monoid_laws, cycle_impl_eq_naive_cycle Sequence Sequence_monoid_laws 6 [1, 2]⟩

/-! ## Properties of the other defaults of `monad_plus.hpp` -/

theorem filter_impl_Sequence_cons {α : Type} (x : α) (xs : List α) (pred : α → Bool) :
    filter_impl Sequence (x :: xs) pred =
      (if pred x = true then [x] else []) ++ filter_impl Sequence xs pred := by
  cases h : pred x <;> simp [filter_impl, filter_impl.go, Sequence, partial_, if_, h]

theorem filter_impl_Sequence_eq_filter {α : Type} (xs : List α) (pred : α → Bool) :
    filter_impl Sequence xs pred = xs.filter pred := by
  induction xs with
  | nil => rfl
  | cons x xs ih =>
    rw [filter_impl_Sequence_cons, ih]
    cases h : pred x <;> simp [List.filter, h]

/-- C11: the default `filter(xs, pred)` is `bind(xs, x -> if pred(x) then
lift<M>(x) else empty<M>())`; for the sequence `MonadPlus` it returns the
elements of the sequence that satisfy `pred`, in their original order (it is
`List.filter`, a subsequence of the argument) and with their original
multiplicity (an element satisfying `pred` occurs as often as before, any
other does not occur). -/
theorem filter_impl_spec {M : Type → Type} (mp : MonadPlus M) {α : Type} [DecidableEq α]
    (xs : M α) (pred : α → Bool) (ys : List α) :
    filter_impl mp xs pred = mp.bind xs (fun x => if pred x = true then mp.lift x else mp.empty) ∧
    filter_impl Sequence ys pred = ys.filter pred ∧
    (filter_impl Sequence ys pred).Sublist ys ∧
    (∀ x, x ∈ filter_impl Sequence ys pred ↔ (x ∈ ys ∧ pred x = true)) ∧
    (∀ x, (filter_impl Sequence ys pred).count x = if pred x = true then ys.count x else 0) := by
  refine ⟨?_, filter_impl_Sequence_eq_filter ys pred, ?_, ?_, ?_⟩
  · unfold filter_impl
    congr 1
    funext x
    cases h : pred x <;> simp [partial_, filter_impl.go, if_, h]
  · rw [filter_impl_Sequence_eq_filter]
    exact List.filter_sublist ys
  · intro x
    rw [filter_impl_Sequence_eq_filter, List.mem_filter]
  · intro x
    rw [filter_impl_Sequence_eq_filter]
    by_cases h : pred x = true
    · rw [if_pos h, List.count_filter h]
    · rw [if_neg h, List.count_eq_zero, List.mem_filter]
      exact fun hx => h hx.2

/-- C12: the default `prepend(x, xs)` is `concat(lift<M>(x), xs)` and the
default `append(xs, x)` is `concat(xs, lift<M>(x))`; for the sequence
`MonadPlus`, `prepend(x, xs)` is `x` followed by the elements of `xs` and
`append(xs, x)` is the elements of `xs` followed by `x`. -/
theorem prepend_append_impl_spec {M : Type → Type} (mp : MonadPlus M) {α : Type}
    (x : α) (xs : M α) (ys : List α) :
    prepend_impl mp x xs = mp.concat (mp.lift x) xs ∧
    append_impl mp xs x = mp.concat xs (mp.lift x) ∧
    prepend_impl Sequence x ys = x :: ys ∧
    append_impl Sequence ys x = ys ++ [x] :=
  ⟨rfl, rfl, rfl, rfl⟩

theorem naive_cycle_Sequence_lift {α : Type} (n : Nat) (x : α) :
    naive_cycle Sequence n (Sequence.lift x) = List.replicate n x := by
  induction n with
  | zero => rfl
  | succ n ih =>
    show [x] ++ naive_cycle Sequence n (Sequence.lift x) = List.replicate (n + 1) x
    rw [ih]
    rfl

/-- C13: the default `repeat(n, x)` is `cycle(n, lift<M>(x))`; for the sequence
`MonadPlus`, with the default `cycle`, it is the sequence of length exactly `n`
all of whose elements are `x`, and the empty sequence when `n = 0`. -/
theorem repeat_impl_spec {M : Type → Type} (mp : MonadPlus M) {α : Type}
    (cycle : Nat → M α → M α) (n : Nat) (x : α) :
    repeat_impl mp cycle n x = cycle n (mp.lift x) ∧
    repeat_impl Sequence (cycle_impl Sequence) n x = List.replicate n x ∧
    (repeat_impl Sequence (cycle_impl Sequence) n x).length = n ∧
    (∀ e, e ∈ repeat_impl Sequence (cycle_impl Sequence) n x → e = x) ∧
    repeat_impl Sequence (cycle_impl Sequence) 0 x = [] := by
  have h : repeat_impl Sequence (cycle_impl Sequence) n x = List.replicate n x := by
    show mdetail.cycle_helper Sequence n (Sequence.lift x) = List.replicate n x
    rw [cycle_helper_eq_naive_cycle Sequence Sequence_monoid_laws, naive_cycle_Sequence_lift]
  have h0 : repeat_impl Sequence (cycle_impl Sequence) 0 x = [] := by
    show mdetail.cycle_helper Sequence 0 (Sequence.lift x) = []
    rw [cycle_helper_eq_naive_cycle Sequence Sequence_monoid_laws]
    rfl
  refine ⟨rfl, h, ?_, ?_, h0⟩
  · rw [h, List.length_replicate]
  · intro e he
    rw [h] at he
    exact List.eq_of_mem_replicate he

theorem prefix_impl_Sequence {α : Type} (z : α) (xs : List α) :
    prefix_impl Sequence (append_impl Sequence) z xs = insert_before_each z xs := by
  induction xs with
  | nil => rfl
  | cons x xs ih =>
    have hstep : prefix_impl Sequence (append_impl Sequence) z (x :: xs) =
        [z, x] ++ prefix_impl Sequence (append_impl Sequence) z xs := by
      simp [prefix_impl, append_impl, Sequence, partial_]
    rw [hstep, ih]
    rfl

theorem suffix_impl_Sequence {α : Type} (z : α) (xs : List α) :
    suffix_impl Sequence (prepend_impl Sequence) z xs = insert_after_each z xs := by
  induction xs with
  | nil => rfl
  | cons x xs ih =>
    have hstep : suffix_impl Sequence (prepend_impl Sequence) z (x :: xs) =
        [x, z] ++ suffix_impl Sequence (prepend_impl Sequence) z xs := by
      simp [suffix_impl, prepend_impl, Sequence, partial_, flip]
    rw [hstep, ih]
    rfl

theorem length_insert_before_each {α : Type} (z : α) (xs : List α) :
    (insert_before_each z xs).length = 2 * xs.length := by
  induction xs with
  | nil => rfl
  | cons x xs ih => simp only [insert_before_each, List.length_cons, ih]; omega

theorem length_insert_after_each {α : Type} (z : α) (xs : List α) :
    (insert_after_each z xs).length = 2 * xs.length := by
  induction xs with
  | nil => rfl
  | cons x xs ih => simp only [insert_after_each, List.length_cons, ih]; omega

theorem getElem_opt_insert_before_each {α : Type} (z : α) (xs : List α) (i : Nat) :
    (insert_before_each z xs)[2 * i]? = xs[i]?.map (fun _ => z) ∧
    (insert_before_each z xs)[2 * i + 1]? = xs[i]? := by
  induction xs generalizing i with
  | nil => simp [insert_before_each]
  | cons x xs ih =>
    cases i with
    | zero => simp [insert_before_each]
    | succ j =>
      have h2 : 2 * (j + 1) = (2 * j + 1) + 1 := by omega
      have h3 : 2 * (j + 1) + 1 = ((2 * j + 1) + 1) + 1 := by omega
      rw [h3, h2]
      simp only [insert_before_each, List.getElem?_cons_succ]
      exact ih j

theorem getElem_opt_insert_after_each {α : Type} (z : α) (xs : List α) (i : Nat) :
    (insert_after_each z xs)[2 * i]? = xs[i]? ∧
    (insert_after_each z xs)[2 * i + 1]? = xs[i]?.map (fun _ => z) := by
  induction xs generalizing i with
  | nil => simp [insert_after_each]
  | cons x xs ih =>
    cases i with
    | zero => simp [insert_after_each]
    | succ j =>
      have h2 : 2 * (j + 1) = (2 * j + 1) + 1 := by omega
      have h3 : 2 * (j + 1) + 1 = ((2 * j + 1) + 1) + 1 := by omega
      rw [h3, h2]
      simp only [insert_after_each, List.getElem?_cons_succ]
      exact ih j

/-- C14: for the sequence `MonadPlus`, with the default `append`, the default
`prefix(z, xs)` is `[z, x1, z, x2, ..., z, xn]`: its length is twice the length
of `xs`, position `2 i` holds `z` and position `2 i + 1` holds the element of
`xs` at position `i`, for every position `i` of `xs`; and `prefix(z, [])` is
empty. -/
theorem prefix_impl_spec {α : Type} (z : α) (xs : List α) :
    prefix_impl Sequence (append_impl Sequence) z xs = insert_before_each z xs ∧
    (prefix_impl Sequence (append_impl Sequence) z xs).length = 2 * xs.length ∧
    (∀ i, (prefix_impl Sequence (append_impl Sequence) z xs)[2 * i]? =
        xs[i]?.map (fun _ => z) ∧
      (prefix_impl Sequence (append_impl Sequence) z xs)[2 * i + 1]? = xs[i]?) ∧
    prefix_impl Sequence (append_impl Sequence) z [] = [] := by
  rw [prefix_impl_Sequence]
  exact ⟨rfl, length_insert_before_each z xs, getElem_opt_insert_before_each z xs, rfl⟩

/-- C15: for the sequence `MonadPlus`, with the default `prepend`, the default
`suffix(z, xs)` is `[x1, z, x2, z, ..., xn, z]`: its length is twice the length
of `xs`, position `2 i` holds the element of `xs` at position `i` and position
`2 i + 1` holds `z`, for every position `i` of `xs`; and `suffix(z, [])` is
empty. -/
theorem suffix_impl_spec {α : Type} (z : α) (xs : List α) :
    suffix_impl Sequence (prepend_impl Sequence) z xs = insert_after_each z xs ∧
    (suffix_impl Sequence (prepend_impl Sequence) z xs).length = 2 * xs.length ∧
    (∀ i, (suffix_impl Sequence (prepend_impl Sequence) z xs)[2 * i]? = xs[i]? ∧
      (suffix_impl Sequence (prepend_impl Sequence) z xs)[2 * i + 1]? =
        xs[i]?.map (fun _ => z)) ∧
    suffix_impl Sequence (prepend_impl Sequence) z [] = [] := by
  rw [suffix_impl_Sequence]
  exact ⟨rfl, length_insert_after_each z xs, getElem_opt_insert_after_each z xs, rfl⟩

/-! ## Further properties of `Optional` -/

/-- C16: `from_just(just(x))` is `x` and `from_just(nothing)` is rejected by the
static assertion with its message, so `from_just(m)` succeeds if and only if
`m` is a `just`; `from_maybe(d, m)` is total, `x` when `m = just(x)` and `d` when
`m` is `nothing`. -/
theorem from_just_from_maybe_spec {T : Type} :
    (∀ x : T, from_just (optional.just x) = Except.ok x) ∧
    (from_just (optional.nothing : optional T) = Except.error
      "trying to extract the value inside a boost::hana::nothing with boost::hana::from_just") ∧
    (∀ m : optional T, (∃ x, from_just m = Except.ok x) ↔ is_just m = true) ∧
    (∀ (d x : T), from_maybe d (optional.just x) = x) ∧
    (∀ d : T, from_maybe d optional.nothing = d) := by
  refine ⟨fun x => rfl, rfl, fun m => ?_, fun d x => rfl, fun d => rfl⟩
  cases m with
  | nothing => simp [from_just, is_just]
  | just v => exact ⟨fun _ => rfl, fun _ => ⟨v, rfl⟩⟩

/-- C17: `unpack(nothing, f)` is ill-formed, instead of being `f()`, when
`nothing` is given as a const rvalue: the generic overload is selected and
reads `m.val`.  Apart from that case, `unpack(just(x), f)` is `f(x)` and
`unpack(nothing, f)` is `f()`. -/
theorem Optional_unpack_const_rvalue {T R : Type} (f : Optional.callable T R) :
    Optional.unpack_impl value_category.const_rvalue optional.nothing f = none ∧
    (∀ (c : value_category) (x : T),
      Optional.unpack_impl c (optional.just x) f = some (f.call1 x)) ∧
    (∀ c : value_category, c ≠ value_category.const_rvalue →
      Optional.unpack_impl c optional.nothing f = some f.call0) := by
  refine ⟨rfl, fun c x => rfl, fun c hc => ?_⟩
  cases c
  · rfl
  · rfl
  · rfl
  · exact absurd rfl hc

theorem nat_strict_total_order : strict_total_order nat_less nat_equal where
  trichotomy := by
    intro x y
    unfold exactly_one nat_less nat_equal
    rcases Nat.lt_trichotomy x y with h | h | h
    · left
      simp only [decide_eq_true_eq, decide_eq_false_iff_not]
      omega
    · right; left
      simp only [decide_eq_true_eq, decide_eq_false_iff_not]
      omega
    · right; right
      simp only [decide_eq_true_eq, decide_eq_false_iff_not]
      omega
  less_trans := by
    intro x y z hxy hyz
    unfold nat_less at *
    simp only [decide_eq_true_eq] at *
    omega

theorem less_irrefl_of_strict_total_order {T : Type} {less equal : T → T → Bool}
    (h : strict_total_order less equal) (x : T) : less x x = false := by
  rcases h.trichotomy x x with ⟨h1, _, h3⟩ | ⟨h1, _, _⟩ | ⟨h1, _, _⟩
  · rw [h1] at h3
    exact absurd h3 (by decide)
  · exact h1
  · exact h1

/-- C18: when `less` is a strict total order on the contents with `equal` as the
matching equality, then for all optionals `a`, `b`, `c` exactly one of
`less(a, b)`, `equal(a, b)`, `less(b, a)` is true, `less(a, a)` is false, `less`
is transitive, and `nothing` is the least element: nothing is below it and it
is below every `just`. -/
theorem Optional_strict_total_order {T : Type} (less equal : T → T → Bool)
    (h : strict_total_order less equal) (a b c : optional T) :
    exactly_one (Optional.less_impl less a b) (Optional.equal_impl equal a b)
      (Optional.less_impl less b a) ∧
    Optional.less_impl less a a = false ∧
    (Optional.less_impl less a b = true → Optional.less_impl less b c = true →
      Optional.less_impl less a c = true) ∧
    Optional.less_impl less a optional.nothing = false ∧
    (a = optional.nothing ∨ Optional.less_impl less optional.nothing a = true) := by
  refine ⟨?_, ?_, ?_, ?_, ?_⟩
  · cases a with
    | nothing =>
      cases b with
      | nothing => exact Or.inr (Or.inl ⟨rfl, rfl, rfl⟩)
      | just y => exact Or.inl ⟨rfl, rfl, rfl⟩
    | just x =>
      cases b with
      | nothing => exact Or.inr (Or.inr ⟨rfl, rfl, rfl⟩)
      | just y => exact h.trichotomy x y
  · cases a with
    | nothing => rfl
    | just x => exact less_irrefl_of_strict_total_order h x
  · cases a with
    | nothing =>
      cases b with
      | nothing => intro hab; simp [Optional.less_impl] at hab
      | just y =>
        cases c with
        | nothing => intro _ hbc; simp [Optional.less_impl] at hbc
        | just z => intro _ _; rfl
    | just x =>
      cases b with
      | nothing => intro hab; simp [Optional.less_impl] at hab
      | just y =>
        cases c with
        | nothing => intro _ hbc; simp [Optional.less_impl] at hbc
        | just z => exact h.less_trans x y z
  · cases a <;> rfl
  · cases a with
    | nothing => exact Or.inl rfl
    | just x => exact Or.inr rfl

theorem Optional_strict_total_order_witness :
    strict_total_order nat_less nat_equal ∧
    exactly_one (Optional.less_impl nat_less optional.nothing (optional.just 1))
      (Optional.equal_impl nat_equal optional.nothing (optional.just 1))
      (Optional.less_impl nat_less (optional.just 1) optional.nothing) ∧
    Optional.less_impl nat_less optional.nothing optional.nothing = false ∧
    (Optional.less_impl nat_less optional.nothing (optional.just 1) = true →
      Optional.less_impl nat_less (optional.just 1) (optional.just 2) = true →
      Optional.less_impl nat_less optional.nothing (optional.just 2) = true) ∧
    Optional.less_impl nat_less optional.nothing optional.nothing = false ∧
    ((optional.nothing : optional Nat) = optional.nothing ∨
      Optional.less_impl nat_less optional.nothing optional.nothing = true) :=
  ⟨nat_strict_total_order,
    Optional_strict_total_order nat_less nat_equal nat_strict_total_order
      optional.nothing (optional.just 1) (optional.just 2)⟩

theorem only_when_total {X R : Type} (pred : X → Bool) (f : X → R) (x : X) :
    only_when pred (total f) x =
      some (if pred x = true then optional.just (f x) else optional.nothing) := by
  cases h : pred x <;>
    simp [only_when, eval_if, lazy.apply, make_lazy, compose_call, total, make_just, h]

/-- C19: `find_if(nothing, pred)` is ill-formed, instead of being `nothing`,
when `nothing` is given as a const rvalue: the generic overload is selected
and reads `m.val`.  Apart from that case, `find_if(m, pred)` is `just(x)` when
`m = just(x)` and `pred(x)` is true, and `nothing` otherwise; and in every case
`any_of(m, pred)` is true if and only if `find_if(m, pred)` is a `just`, with
`any_of(nothing, pred)` false and `any_of(just(x), pred) = pred(x)`. -/
theorem Optional_find_if_const_rvalue {T : Type} (pred : T → Bool) :
    Optional.find_if_impl value_category.const_rvalue optional.nothing pred = none ∧
    (∀ (c : value_category) (x : T), Optional.find_if_impl c (optional.just x) pred =
      some (if pred x = true then optional.just x else optional.nothing)) ∧
    (∀ c : value_category, c ≠ value_category.const_rvalue →
      Optional.find_if_impl c optional.nothing pred = some optional.nothing) ∧
    (∀ (c : value_category) (m : optional T), Optional.any_of_impl m pred = true ↔
      ∃ x, Optional.find_if_impl c m pred = some (optional.just x)) ∧
    Optional.any_of_impl optional.nothing pred = false ∧
    (∀ x : T, Optional.any_of_impl (optional.just x) pred = pred x) := by
  have hjust : ∀ (c : value_category) (x : T),
      Optional.find_if_impl c (optional.just x) pred =
        some (if pred x = true then optional.just x else optional.nothing) :=
    fun _ x => only_when_total pred id x
  refine ⟨rfl, hjust, fun c hc => ?_, fun c m => ?_, rfl, fun x => rfl⟩
  · cases c
    · rfl
    · rfl
    · rfl
    · exact absurd rfl hc
  · cases m with
    | nothing =>
      constructor
      · intro hm
        simp [Optional.any_of_impl, maybe] at hm
      · rintro ⟨x, hx⟩
        cases c <;> simp [Optional.find_if_impl, nothing_overload_selected, optional.val] at hx
    | just v =>
      rw [hjust c v]
      show pred v = true ↔ _
      cases h : pred v
      · simp
      · simp

/-- C20: `filter(m, pred) = find_if(m, pred)` fails on `Optional` when `m` is a
`nothing` given as a const rvalue: `find_if` is ill-formed there, whereas the
default `filter` is `nothing`.  Apart from that case, that is when `m` is a
`just` or is not a const rvalue, the default `filter` (with
`bind = flatten` after `transform`, `lift = just`, `empty = nothing`) and
`find_if` coincide. -/
theorem Optional_filter_find_if_const_rvalue {T : Type} (pred : T → Bool) :
    (Optional.find_if_impl value_category.const_rvalue optional.nothing pred = none ∧
      ∀ c : value_category,
        filter_impl (Optional.monad_plus c) optional.nothing pred = optional.nothing) ∧
    (∀ (c d : value_category) (x : T),
      some (filter_impl (Optional.monad_plus d) (optional.just x) pred) =
        Optional.find_if_impl c (optional.just x) pred) ∧
    (∀ c d : value_category, c ≠ value_category.const_rvalue →
      some (filter_impl (Optional.monad_plus d) optional.nothing pred) =
        Optional.find_if_impl c optional.nothing pred) := by
  refine ⟨⟨rfl, fun c => rfl⟩, fun c d x => ?_, fun c d hc => ?_⟩
  · show _ = only_when pred (total id) x
    rw [only_when_total]
    cases h : pred x <;>
      simp [filter_impl, filter_impl.go, partial_, if_, Optional.monad_plus, Optional.bind_impl,
        Optional.flatten_impl, Optional.transform_impl, Optional.lift_impl, Optional.empty_impl,
        maybe, compose, make_just, h]
  · cases c
    · rfl
    · rfl
    · rfl
    · exact absurd rfl hc

/-! ## `Optional` under the defaults of `monad_plus.hpp` -/

theorem Optional_monoid_laws :
    (Optional.monad_plus value_category.const_lvalue).monoid_laws where
  concat_assoc := by
    intro α a b c
    cases a <;> cases b <;> rfl
  empty_concat := fun _ => rfl
  concat_empty := by
    intro α a
    cases a <;> rfl

theorem naive_cycle_Optional_succ {T : Type} (k : Nat) (m : optional T) :
    naive_cycle (Optional.monad_plus value_category.const_lvalue) (k + 1) m = m := by
  induction k with
  | zero => cases m <;> rfl
  | succ k ih =>
    show Optional.concat_impl value_category.const_lvalue m
      (naive_cycle (Optional.monad_plus value_category.const_lvalue) (k + 1) m) = m
    rw [ih]
    cases m <;> rfl

/-- C21: `concat(nothing, y)` is `nothing` instead of `y`, and the default
`append(nothing, x)` is `nothing` instead of `just(x)`, when `nothing` is given
as a const rvalue.  Apart from that case `concat` on `Optional` is left-biased
and idempotent and the default derived operations collapse:
`concat(nothing, y)` is `y`, `concat(just(x), y)` is `just(x)`, `concat(m, m)` is
`m`; `cycle(0, m)` is `nothing` and `cycle(n, m)` is `m` for every `n >= 1`
(`cycle` takes `m` by `const&`); `prepend(x, m)` is `just(x)`; `append(m, x)` is
`m` when `m` is a `just`, and `just(x)` when `m` is `nothing`. -/
theorem Optional_concat_left_biased_const_rvalue :
    (Optional.concat_impl value_category.const_rvalue (optional.nothing : optional Nat)
        (optional.just 1) = optional.nothing ∧
      append_impl (Optional.monad_plus value_category.const_rvalue)
        (optional.nothing : optional Nat) 1 = optional.nothing) ∧
    (∀ (T : Type) (c : value_category) (y : optional T),
      c ≠ value_category.const_rvalue → Optional.concat_impl c optional.nothing y = y) ∧
    (∀ (T : Type) (c : value_category) (x : T) (y : optional T),
      Optional.concat_impl c (optional.just x) y = optional.just x) ∧
    (∀ (T : Type) (c : value_category) (m : optional T), Optional.concat_impl c m m = m) ∧
    (∀ (T : Type) (m : optional T),
      cycle_impl (Optional.monad_plus value_category.const_lvalue) 0 m = optional.nothing) ∧
    (∀ (T : Type) (n : Nat) (m : optional T), 1 ≤ n →
      cycle_impl (Optional.monad_plus value_category.const_lvalue) n m = m) ∧
    (∀ (T : Type) (x : T) (m : optional T),
      prepend_impl (Optional.monad_plus value_category.rvalue) x m = optional.just x) ∧
    (∀ (T : Type) (c : value_category) (y x : T),
      append_impl (Optional.monad_plus c) (optional.just y) x = optional.just y) ∧
    (∀ (T : Type) (c : value_category) (x : T), c ≠ value_category.const_rvalue →
      append_impl (Optional.monad_plus c) optional.nothing x = optional.just x) := by
  refine ⟨⟨rfl, rfl⟩, ?_, fun T c x y => rfl, ?_, ?_, ?_, fun T x m => rfl,
    fun T c y x => rfl, ?_⟩
  · intro T c y hc
    cases c
    · rfl
    · rfl
    · rfl
    · exact absurd rfl hc
  · intro T c m
    cases m
    · cases c <;> rfl
    · rfl
  · intro T m
    show mdetail.cycle_helper (Optional.monad_plus value_category.const_lvalue) 0 m =
      optional.nothing
    rw [cycle_helper_eq_naive_cycle _ Optional_monoid_laws]
    rfl
  · intro T n m hn
    obtain ⟨k, rfl⟩ : ∃ k, n = k + 1 := ⟨n - 1, by omega⟩
    show mdetail.cycle_helper (Optional.monad_plus value_category.const_lvalue) (k + 1) m = m
    rw [cycle_helper_eq_naive_cycle _ Optional_monoid_laws]
    exact naive_cycle_Optional_succ k m
  · intro T c x hc
    cases c
    · rfl
    · rfl
    · rfl
    · exact absurd rfl hc

/-! ## Properties of `only_when` -/

theorem only_when_eq {X R : Type} (pred : X → Bool) (f : X → Option R) (x : X) :
    only_when pred f x =
      if pred x = true then (f x).map optional.just else some optional.nothing := by
  cases h : pred x
  · simp [only_when, eval_if, make_lazy, h]
  · simp only [only_when, eval_if, lazy.apply, make_lazy, compose_call, h, Option.some_bind,
      if_true]
    rfl

/-- C22: `only_when(pred, f, x)` is `just(f(x))` when `pred(x)` is true and
`nothing` when `pred(x)` is false; `f` is called only in the first case, so
that the result is `nothing`, and well-formed, when `pred(x)` is false even if
the call `f(x)` is ill-formed. -/
theorem only_when_spec {X R : Type} (pred : X → Bool) (f : X → Option R) (x : X) :
    (only_when pred f x =
      if pred x = true then (f x).map optional.just else some optional.nothing) ∧
    (∀ v : R, pred x = true → f x = some v → only_when pred f x = some (optional.just v)) ∧
    (pred x = false → only_when pred f x = some optional.nothing) ∧
    (pred x = false → only_when pred (fun _ => (none : Option R)) x = some optional.nothing) ∧
    (∀ g : X → R, only_when pred (total g) x =
      some (if pred x = true then optional.just (g x) else optional.nothing)) := by
  refine ⟨only_when_eq pred f x, ?_, ?_, ?_, ?_⟩
  · intro v hp hf
    rw [only_when_eq, if_pos hp, hf]
    rfl
  · intro hp
    rw [only_when_eq, hp]
    rfl
  · intro hp
    rw [only_when_eq, hp]
    rfl
  · intro g
    exact only_when_total pred g x

/-! ## Termination of `cycle_helper` -/

theorem cycle_helper_selected_eq (n : Nat) :
    mdetail.cycle_helper_selected n =
      some (if n = 0 then mdetail.cycle_helper_spec.zero_true
        else if n % 2 = 0 then mdetail.cycle_helper_spec.n_true
        else mdetail.cycle_helper_spec.n_false) := by
  by_cases h0 : n = 0
  · subst h0
    rfl
  · have hb0 : (n == 0) = false := by simpa using h0
    by_cases h2 : n % 2 = 0
    · have hb2 : (n % 2 == 0) = true := by simpa using h2
      have hcand : mdetail.cycle_helper_candidates n = [mdetail.cycle_helper_spec.n_true] := by
        simp [mdetail.cycle_helper_candidates, mdetail.cycle_helper_spec.applies, List.filter,
          hb0, hb2]
      rw [mdetail.cycle_helper_selected, hcand, if_neg h0, if_pos h2]
      rfl
    · have hb2 : (n % 2 == 0) = false := by simpa using h2
      have hcand : mdetail.cycle_helper_candidates n = [mdetail.cycle_helper_spec.n_false] := by
        simp [mdetail.cycle_helper_candidates, mdetail.cycle_helper_spec.applies, List.filter,
          hb0, hb2]
      rw [mdetail.cycle_helper_selected, hcand, if_neg h0, if_neg h2]
      rfl

theorem cycle_helper_depth_of_lt (n : Nat) :
    ∀ fuel, n < fuel → ∃ d, d ≤ n ∧ mdetail.cycle_helper_depth fuel n = some d := by
  induction n using Nat.strong_induction_on with
  | _ n ih =>
    intro fuel hfuel
    obtain ⟨k, rfl⟩ : ∃ k, fuel = k + 1 := ⟨fuel - 1, by omega⟩
    unfold mdetail.cycle_helper_depth
    rw [cycle_helper_selected_eq]
    by_cases h0 : n = 0
    · exact ⟨0, Nat.zero_le n, by simp [h0, mdetail.cycle_helper_spec.nested]⟩
    · by_cases h2 : n % 2 = 0
      · obtain ⟨d, hd, hdepth⟩ := ih (n / 2) (by omega) k (by omega)
        refine ⟨d + 1, by omega, ?_⟩
        simp [h0, h2, mdetail.cycle_helper_spec.nested, hdepth]
      · obtain ⟨d, hd, hdepth⟩ := ih (n - 1) (by omega) k (by omega)
        refine ⟨d + 1, by omega, ?_⟩
        simp [h0, h2, mdetail.cycle_helper_spec.nested, hdepth]

/-- C23: the recursion of `mdetail::cycle_helper` terminates for every natural
number `n`.  Exactly one of the cases `n = 0`, `n` even and non-zero, `n` odd
holds, and the specialization instantiated for `n` is the one of that case;
the nested instantiation, `n/2` for an even non-zero `n` and `n-1` for an odd
`n`, has a strictly smaller argument, and `n = 0` has none; the base case is
reached after at most `n` nested instantiations; and `apply` is the total
function given by the three bodies. -/
theorem cycle_helper_terminates {M : Type → Type} (mp : MonadPlus M) {α : Type} (n : Nat)
    (xs : M α) :
    ((n = 0 ∨ (n ≠ 0 ∧ n % 2 = 0) ∨ n % 2 = 1) ∧
      ¬(n = 0 ∧ (n ≠ 0 ∧ n % 2 = 0)) ∧ ¬(n = 0 ∧ n % 2 = 1) ∧
      ¬((n ≠ 0 ∧ n % 2 = 0) ∧ n % 2 = 1)) ∧
    (mdetail.cycle_helper_selected n =
      some (if n = 0 then mdetail.cycle_helper_spec.zero_true
        else if n % 2 = 0 then mdetail.cycle_helper_spec.n_true
        else mdetail.cycle_helper_spec.n_false)) ∧
    (∀ s m, mdetail.cycle_helper_selected n = some s → s.nested n = some m → m < n) ∧
    (∃ d, d ≤ n ∧ mdetail.cycle_helper_depth (n + 1) n = some d) ∧
    (n = 0 → mdetail.cycle_helper mp n xs = mp.empty) ∧
    (n ≠ 0 → n % 2 = 0 →
      n / 2 < n ∧
      mdetail.cycle_helper mp n xs = mdetail.cycle_helper mp (n / 2) (mp.concat xs xs)) ∧
    (n % 2 = 1 →
      n - 1 < n ∧
      mdetail.cycle_helper mp n xs = mp.concat xs (mdetail.cycle_helper mp (n - 1) xs)) := by
  refine ⟨⟨by omega, by omega, by omega, by omega⟩, cycle_helper_selected_eq n, ?_,
    cycle_helper_depth_of_lt n (n + 1) (Nat.lt_succ_self n), ?_, ?_, ?_⟩
  · intro s m hs hm
    rw [cycle_helper_selected_eq] at hs
    by_cases h0 : n = 0
    · rw [if_pos h0] at hs
      cases hs
      simp [mdetail.cycle_helper_spec.nested] at hm
    · by_cases h2 : n % 2 = 0
      · rw [if_neg h0, if_pos h2] at hs
        cases hs
        simp only [mdetail.cycle_helper_spec.nested, Option.some.injEq] at hm
        omega
      · rw [if_neg h0, if_neg h2] at hs
        cases hs
        simp only [mdetail.cycle_helper_spec.nested, Option.some.injEq] at hm
        omega
  · intro h0
    rw [mdetail.cycle_helper, if_pos h0]
  · intro h0 h2
    refine ⟨by omega, ?_⟩
    rw [mdetail.cycle_helper, if_neg h0, if_pos h2]
  · intro h1
    refine ⟨by omega, ?_⟩
    rw [mdetail.cycle_helper, if_neg (by omega), if_neg (by omega)]

end Hana
